import Mathlib

/-!
Verification of the calcium_avae repository (a VAE trained on calcium-imaging
traces) against its natural-language specification.

The numeric parts of the two scripts (`simulations.py` and `snDGM/sndgm/avae.py`)
are embedded shallowly: tensors become `List (List ℚ)` (a rectangular batch of
rows), elementwise torch operations become `List.zipWith`, and `torch.sum`
becomes `List.sum`.  Floating-point values that only matter through their
ordering and NaN behaviour are modelled by the type `Flt` below; the training
loop is embedded as an explicit recursion over epochs.
-/

/-- Executable model of the elementwise exponential `torch.exp` (used by the
code as `logvar.exp()` and `torch.exp(0.5 * logvar)`): a truncated Taylor
series.  It is exact at `0` (`texp 0 = 1`), which is the only value of the
exponential any claim below depends on. -/
def texp (x : ℚ) : ℚ :=
  List.sum (List.map (fun k => x ^ k / (Nat.factorial k)) (List.range 8))

/-- simulations.py:441 and 469: `rec_err = torch.sum(abs(xhat - x)**2) / n`.
The sum runs over every element of the batch; the divisor `n` is the
configured `batch_size` at line 441 and `reconstructed_x.shape[0]` (the actual
number of rows) at line 469. -/
def rec_err (xhat x : List (List ℚ)) (n : ℕ) : ℚ :=
  List.sum (List.zipWith
    (fun rrow xrow => List.sum (List.zipWith (fun a c => |a - c| ^ 2) rrow xrow))
    xhat x) / n

/-- simulations.py:445 and 473:
`kl_divergence = -0.5 * torch.sum(1 + logvar - mu.pow(2) - logvar.exp()) / n`,
with `n` the configured `batch_size` at line 445 and the actual number of rows
at line 473. -/
def kl_divergence (mu logvar : List (List ℚ)) (n : ℕ) : ℚ :=
  -(1 / 2) * List.sum (List.zipWith
    (fun mrow lrow =>
      List.sum (List.zipWith (fun m l => 1 + l - m ^ 2 - texp l) mrow lrow))
    mu logvar) / n

/-- simulations.py:449: the per-batch training loss
`loss = rec_err + beta * kl_divergence`, both terms divided by the configured
`batch_size`. -/
def train_batch_loss (beta : ℚ) (xhat x mu logvar : List (List ℚ)) (batchSize : ℕ) : ℚ :=
  rec_err xhat x batchSize + beta * kl_divergence mu logvar batchSize

/-- simulations.py:466-480: the validation loss of one epoch.  One forward pass
over the whole validation set, reconstruction and KL terms divided by
`reconstructed_x.shape[0]` (the number of validation rows), combined as
`loss = rec_err + beta * kl_divergence`; `running_loss_val` accumulates this
single value. -/
def val_loss_epoch (beta : ℚ) (xhat xval mu logvar : List (List ℚ)) : ℚ :=
  rec_err xhat xval xhat.length + beta * kl_divergence mu logvar xhat.length

/-- simulations.py:495: `mean_loss_val = running_loss_val / len(data_loader)`.
`running_loss_val` holds the single value `val_loss_epoch`, and
`len(data_loader)` is the number of training batches; this quotient is the
value appended to the recorded validation-loss curve. -/
def mean_loss_val (beta : ℚ) (xhat xval mu logvar : List (List ℚ))
    (numTrainBatches : ℕ) : ℚ :=
  val_loss_epoch beta xhat xval mu logvar / numTrainBatches

/-- The reconstruction term as claim C6 words it: the elementwise sum of
squared differences divided by the number of samples actually present in the
batch (`xhat.length`).  Stated for comparison with `rec_err`, which divides by
the configured batch size during training. -/
def rec_err_per_sample (xhat x : List (List ℚ)) : ℚ :=
  List.sum (List.zipWith
    (fun rrow xrow => List.sum (List.zipWith (fun a c => |a - c| ^ 2) rrow xrow))
    xhat x) / xhat.length

/-- simulations.py:192-202, `VAE.sample_z`: `std = torch.exp(0.5 * logvar)`;
`eps = torch.randn_like(std)`; `z = mu + eps * std`, elementwise over the
batch.  The noise tensor `eps` is drawn from torch's global generator at each
call; here it is an explicit argument. -/
def sample_z (mu logvar eps : List (List ℚ)) : List (List ℚ) :=
  List.zipWith
    (fun p erow =>
      List.zipWith (fun q e => q.1 + e * texp ((1 / 2) * q.2)) (p.1.zip p.2) erow)
    (mu.zip logvar) eps

/-- Error raised when an input batch's feature dimension disagrees with a
layer's expected input size (spec section 7, `DataShapeMismatch`). -/
inductive VAEError where
  | shapeMismatch
deriving DecidableEq

/-- A single-time-step LSTM layer as the scripts use it
(simulations.py:164,170: `nn.LSTM(input_size, hidden_size, batch_first=True)`
applied to a `(batch, 1, input_size)` tensor).  torch's `nn.LSTM.forward`
validates `input.size(-1) == input_size` (its `check_input`) and raises a
shape-mismatch error before running the cell; the cell computation itself is
torch-internal and is abstracted as the function `step` from the time step's
input features to the final hidden state of size `hidden_size`. -/
structure LSTM where
  input_size : ℕ
  hidden_size : ℕ
  step : List ℚ → List ℚ

/-- Applying the LSTM to a batch (one time step per row): the shape of the
feature dimension is checked first; only then is the cell evaluated. -/
def LSTM.run (m : LSTM) (x : List (List ℚ)) : Except VAEError (List (List ℚ)) :=
  if x.all (fun row => row.length == m.input_size) then
    Except.ok (x.map m.step)
  else
    Except.error VAEError.shapeMismatch

/-- A fully-connected layer `nn.Linear` (simulations.py:165-169): weight rows
and a bias vector; the output is `weight ⬝ h + bias`. -/
structure Linear where
  weight : List (List ℚ)
  bias : List ℚ

def Linear.run (l : Linear) (h : List ℚ) : List ℚ :=
  List.zipWith (fun wrow b => List.sum (List.zipWith (fun w a => w * a) wrow h) + b)
    l.weight l.bias

/-- The VAE module of simulations.py:153-230. -/
structure VAE where
  input_dim : ℕ
  hidden_dim : ℕ
  latent_dim : ℕ
  encoder_lstm : LSTM
  encoder_fc_mu : Linear
  encoder_fc_logvar : Linear
  decoder_l1 : Linear
  decoder_l2 : LSTM

/-- `VAE.__init__` (simulations.py:155-170): wires the layer dimensions —
`encoder_lstm = nn.LSTM(input_dim, hidden_dim)`,
`decoder_l2 = nn.LSTM(hidden_dim, input_dim)`.  The trained weights and the
LSTM cell functions are parameters here. -/
def VAE.make (input_dim hidden_dim latent_dim : ℕ)
    (encStep decStep : List ℚ → List ℚ)
    (fcMu fcLogvar fcDec : Linear) : VAE :=
  { input_dim := input_dim
    hidden_dim := hidden_dim
    latent_dim := latent_dim
    encoder_lstm := ⟨input_dim, hidden_dim, encStep⟩
    encoder_fc_mu := fcMu
    encoder_fc_logvar := fcLogvar
    decoder_l1 := fcDec
    decoder_l2 := ⟨hidden_dim, input_dim, decStep⟩ }

/-- `VAE.encode` (simulations.py:172-190): run the encoder LSTM on the batch
(each row one time step), then the two linear heads produce `mu` and
`logvar`. -/
def VAE.encode (v : VAE) (x : List (List ℚ)) :
    Except VAEError (List (List ℚ) × List (List ℚ)) :=
  match v.encoder_lstm.run x with
  | Except.error e => Except.error e
  | Except.ok hd =>
      Except.ok (hd.map v.encoder_fc_mu.run, hd.map v.encoder_fc_logvar.run)

/-- `VAE.decode` (simulations.py:204-217): linear layer then the decoder
LSTM. -/
def VAE.decode (v : VAE) (z : List (List ℚ)) : Except VAEError (List (List ℚ)) :=
  v.decoder_l2.run (z.map v.decoder_l1.run)

/-- `VAE.forward` (simulations.py:219-230): encode, reparameterize with the
noise draw `eps`, decode. -/
def VAE.forward (v : VAE) (eps : List (List ℚ)) (x : List (List ℚ)) :
    Except VAEError (List (List ℚ) × List (List ℚ) × List (List ℚ)) :=
  match v.encode x with
  | Except.error e => Except.error e
  | Except.ok (mu, logvar) =>
      match v.decode (sample_z mu logvar eps) with
      | Except.error e => Except.error e
      | Except.ok xhat => Except.ok (xhat, mu, logvar)

/-- Floating-point loss values as far as the training loop's control flow
observes them: a finite value, `+inf` (the initial `best_val_loss =
float('inf')`, simulations.py:407), or `nan` (a non-finite loss produced by a
diverged model; `-inf` never arises in the runs considered).  Comparisons
involving `nan` are false and arithmetic propagates it, as in IEEE-754. -/
inductive Flt where
  | fin (q : ℚ)
  | inf
  | nan
deriving DecidableEq

/-- `best_val_loss - min_delta` (simulations.py:507) for a rational
`min_delta`. -/
def Flt.subQ : Flt → ℚ → Flt
  | Flt.fin a, d => Flt.fin (a - d)
  | Flt.inf, _ => Flt.inf
  | Flt.nan, _ => Flt.nan

/-- The strict `<` of floats: any comparison with `nan` is false. -/
def Flt.lt : Flt → Flt → Bool
  | Flt.fin a, Flt.fin b => decide (a < b)
  | Flt.fin _, Flt.inf => true
  | _, _ => false

/-- Float addition restricted to the values above: `nan` propagates. -/
def Flt.add : Flt → Flt → Flt
  | Flt.fin a, Flt.fin b => Flt.fin (a + b)
  | Flt.nan, _ => Flt.nan
  | _, Flt.nan => Flt.nan
  | _, _ => Flt.inf

/-- simulations.py:428-461: the inner batch loop of one epoch.  Starting from
`running_loss = 0.0` it accumulates the loss of every batch; the body contains
no conditional, so every batch is processed and the pair returned is the
accumulated running loss together with the number of batch steps executed. -/
def batch_loop (losses : List Flt) : Flt × ℕ :=
  losses.foldl (fun acc l => (Flt.add acc.1 l, acc.2 + 1)) (Flt.fin 0, 0)

/-- The observable per-epoch state of the training loop of
simulations.py:403-514 (and avae.py:95-135): the recorded train and validation
loss curves, `best_val_loss`, the early-stopping `counter`, and whether the
early-stopping break has been triggered. -/
structure TrainLog where
  train : List Flt
  val : List Flt
  best : Flt
  counter : ℕ
  stopped : Bool
deriving DecidableEq

/-- simulations.py:404-414: `counter = 0`, `best_val_loss = float('inf')`,
empty loss curves, loop not yet broken. -/
def initLog : TrainLog := ⟨[], [], Flt.inf, 0, false⟩

/-- One epoch of the loop body, given the epoch's mean training loss `tl` and
recorded validation loss `vl` (the numeric computation that produces them is
the torch forward/backward pass, abstracted as these inputs).  First the
values are appended to the curves (simulations.py:484,496), then the
early-stopping check runs (simulations.py:507-514): on improvement
`best_val_loss` is replaced and the counter reset; otherwise the counter is
incremented and the loop breaks when it reaches `patience`. -/
def epochStep (δ : ℚ) (patience : ℕ) (tl vl : Flt) (s : TrainLog) : TrainLog :=
  if Flt.lt vl (Flt.subQ s.best δ) then
    { train := s.train ++ [tl], val := s.val ++ [vl],
      best := vl, counter := 0, stopped := false }
  else
    { train := s.train ++ [tl], val := s.val ++ [vl],
      best := s.best, counter := s.counter + 1,
      stopped := decide (patience ≤ s.counter + 1) }

/-- `for epoch in range(num_epochs)` with the early-stopping `break`
(simulations.py:419-514): with `n` epochs of budget remaining, stop if the
break was triggered, otherwise run one epoch (its index is the number of
values already recorded) and continue.  `t e` and `v e` are the mean training
loss and recorded validation loss of epoch `e`. -/
def runFrom (t v : ℕ → Flt) (δ : ℚ) (patience : ℕ) : ℕ → TrainLog → TrainLog
  | 0, s => s
  | n + 1, s =>
      if s.stopped then s
      else runFrom t v δ patience n (epochStep δ patience (t s.val.length) (v s.val.length) s)

/-- The early-stopping state `(best_val_loss, counter)` after `k` epochs, as
the spec's update rule describes it: start at `(inf, 0)`; on
`val < best - min_delta` reset to `(val, 0)`, otherwise increment the
counter. -/
def specState (v : ℕ → Flt) (δ : ℚ) : ℕ → Flt × ℕ
  | 0 => (Flt.inf, 0)
  | k + 1 =>
      if Flt.lt (v k) (Flt.subQ (specState v δ k).1 δ) then (v k, 0)
      else ((specState v δ k).1, (specState v δ k).2 + 1)

/-- The early-stopping counter at the end of epoch `k` (0-indexed). -/
def counterAt (v : ℕ → Flt) (δ : ℚ) (k : ℕ) : ℕ := (specState v δ (k + 1)).2

/-- avae.py:75,148: `DataLoader(..., batch_size=b, shuffle=False)` yields the
dataset in its original order in consecutive batches of `b` rows, the last
batch possibly smaller (`drop_last` is left at its default `False`).  A batch
size of `0` is rejected by torch; the guard returns no batches for it. -/
def batches {α : Type} (b : ℕ) (l : List α) : List (List α) :=
  if h : b = 0 ∨ l.isEmpty then []
  else l.take b :: batches b (l.drop b)
termination_by l.length
decreasing_by
  push_neg at h
  rcases l with _ | ⟨a, l⟩
  · simp at h
  · simp only [List.length_drop, List.length_cons]
    omega

/-- avae.py:143-152: the embedding export.  Iterate the unshuffled DataLoader
over the full dataset, run `mu, _ = model.encode(x)` on each batch and
`np.concatenate` the per-batch means.  Modelled from the spec: `utils.py`
(holding the library variant's `VAE.encode`) is absent from the sources; per
the spec, `encode` maps each sample to `(mu, logvar)` with `mu` of length
`latent_dim`, so the encoder's mean head is the abstract per-row function
`encMu`.  Only `encode` is called here — `sample_z` takes no part. -/
def exportEmbeddings (encMu : List ℚ → List ℚ) (b : ℕ) (data : List (List ℚ)) :
    List (List ℚ) :=
  ((batches b data).map (fun xs => xs.map encMu)).flatten

/-! ## Helper lemmas -/

theorem texp_zero : texp 0 = 1 := by
  norm_num [texp, List.range_succ]

theorem zipWith_replicate_same {α β γ : Type} (f : α → β → γ) (n : ℕ) (a : α) (b : β) :
    List.zipWith f (List.replicate n a) (List.replicate n b) = List.replicate n (f a b) := by
  induction n with
  | zero => rfl
  | succ n ih => simp [List.replicate_succ, ih]

theorem batches_flatten {α : Type} (b : ℕ) (hb : 0 < b) (l : List α) :
    (batches b l).flatten = l := by
  rw [batches]
  split
  · rename_i h
    rcases h with h | h
    · omega
    · rcases l with _ | ⟨a, l⟩
      · rfl
      · simp at h
  · rename_i h
    simp only [List.flatten_cons]
    rw [batches_flatten b hb (l.drop b)]
    exact List.take_append_drop b l
termination_by l.length
decreasing_by
  rcases l with _ | ⟨a, l⟩
  · simp_all
  · simp only [List.length_drop, List.length_cons]
    omega

/-! ## Claims -/

/-- Claim C1: the claim asserts that one explicit seed determines the
reparameterization noise, making a training run a deterministic function of
(seed, data, configuration).  The code draws `eps` with `torch.randn_like`
from torch's global generator, which neither script ever seeds
(simulations.py has no seed at all; avae.py passes its `--seed` only to
`train_test_split`), so the output of `sample_z` — and with it every loss
curve and embedding downstream — varies with the ambient noise draw even when
seed, data and configuration are fixed: two draws of `eps` give two different
latent samples for the same `mu`, `logvar`. -/
theorem sample_z_depends_on_ambient_noise :
    sample_z [[(0 : ℚ)]] [[0]] [[1]] ≠ sample_z [[(0 : ℚ)]] [[0]] [[2]] := by
  norm_num [sample_z, texp_zero]

/-- Claim C3: the claim says the recorded per-epoch validation loss equals the
combined loss of one full validation pass averaged over the validation
samples.  The code computes that combined loss (`val_loss_epoch`) but then
records `running_loss_val / len(data_loader)` (simulations.py:495), dividing
the single accumulated value by the number of *training* batches.  At a
validation set of two rows with squared error 4 per sample and zero KL, and
two training batches, the code records 2 while the combined validation loss
is 4. -/
theorem recorded_val_loss_is_divided_by_train_batch_count :
    val_loss_epoch 1 [[(2 : ℚ)], [2]] [[0], [0]] [[0], [0]] [[0], [0]] = 4 ∧
    mean_loss_val 1 [[(2 : ℚ)], [2]] [[0], [0]] [[0], [0]] [[0], [0]] 2 = 2 ∧
    mean_loss_val 1 [[(2 : ℚ)], [2]] [[0], [0]] [[0], [0]] [[0], [0]] 2 ≠
      val_loss_epoch 1 [[(2 : ℚ)], [2]] [[0], [0]] [[0], [0]] [[0], [0]] := by
  norm_num [mean_loss_val, val_loss_epoch, rec_err, kl_divergence, texp_zero]

/-- Claim C4: the KL term `-0.5 * sum(1 + logvar - mu^2 - exp(logvar))`
averaged over batch size evaluates to exactly 0 when `mu` and `logvar` are
zero matrices of any shape `n × d`, for any batch-size divisor. -/
theorem kl_divergence_zero_at_standard_normal (n d B : ℕ) :
    kl_divergence (List.replicate n (List.replicate d (0 : ℚ)))
      (List.replicate n (List.replicate d 0)) B = 0 := by
  unfold kl_divergence
  rw [zipWith_replicate_same]
  rw [zipWith_replicate_same]
  simp [List.sum_replicate, texp_zero]

/-- Claim C5: with `beta_kl = 0` the combined loss equals the reconstruction
term exactly, for every batch, every `mu`/`logvar`, and both for the training
loss (simulations.py:449) and the validation loss (simulations.py:477). -/
theorem beta_zero_combined_loss_is_reconstruction
    (xhat x mu logvar : List (List ℚ)) (B : ℕ) :
    train_batch_loss 0 xhat x mu logvar B = rec_err xhat x B ∧
    val_loss_epoch 0 xhat x mu logvar = rec_err xhat x xhat.length := by
  simp [train_batch_loss, val_loss_epoch]

/-- Claim C6, counterexample: the claim says the reconstruction term divides
by the number of samples in the batch.  The training loop divides by the
*configured* `batch_size` (simulations.py:441); on a final partial batch of 3
rows with per-element squared error 1 and configured batch size 16 the code
yields 3/16, not 3/3. -/
theorem rec_err_not_averaged_over_actual_batch_rows :
    rec_err [[(1 : ℚ)], [1], [1]] [[0], [0], [0]] 16 ≠
      rec_err_per_sample [[(1 : ℚ)], [1], [1]] [[0], [0], [0]] := by
  norm_num [rec_err, rec_err_per_sample]

/-- Claim C6, amended: the reconstruction term sums the squared elementwise
differences over the whole batch and divides by the configured batch size
(not the feature count); this coincides with averaging over the samples
actually in the batch exactly when the batch is full, and the validation
reconstruction term (simulations.py:469), which divides by
`reconstructed_x.shape[0]`, is the per-sample average by construction. -/
theorem rec_err_divides_by_configured_batch_size
    (xhat x : List (List ℚ)) (B : ℕ) (h : xhat.length = B) :
    rec_err xhat x B = rec_err_per_sample xhat x := by
  subst h
  rfl

theorem rec_err_divides_by_configured_batch_size_witness :
    ([[(1 : ℚ)], [1]] : List (List ℚ)).length = 2 ∧
    rec_err [[(1 : ℚ)], [1]] [[0], [0]] 2 = rec_err_per_sample [[(1 : ℚ)], [1]] [[0], [0]] :=
  ⟨rfl, rec_err_divides_by_configured_batch_size [[(1 : ℚ)], [1]] [[0], [0]] 2 rfl⟩

/-- Claim C7: a batch containing a row whose feature dimension differs from
the model's `input_dim` makes the forward pass fail with a shape-mismatch
error before any computation proceeds — the encoder LSTM's input validation
rejects it, so `encode` (and hence `forward`, for every noise draw) returns
the error and no layer output is produced. -/
theorem encode_fails_on_wrong_feature_dim
    (idim hdim ldim : ℕ) (encStep decStep : List ℚ → List ℚ)
    (fcMu fcLogvar fcDec : Linear) (x : List (List ℚ)) (r : List ℚ)
    (hr : r ∈ x) (hlen : r.length ≠ idim) :
    (VAE.make idim hdim ldim encStep decStep fcMu fcLogvar fcDec).encode x =
      Except.error VAEError.shapeMismatch ∧
    ∀ eps, (VAE.make idim hdim ldim encStep decStep fcMu fcLogvar fcDec).forward eps x =
      Except.error VAEError.shapeMismatch := by
  have hall : x.all (fun row => row.length == idim) = false := by
    rw [List.all_eq_false]
    exact ⟨r, hr, by simp [hlen]⟩
  have henc : (VAE.make idim hdim ldim encStep decStep fcMu fcLogvar fcDec).encode x =
      Except.error VAEError.shapeMismatch := by
    simp [VAE.encode, VAE.make, LSTM.run, hall]
  exact ⟨henc, fun eps => by simp [VAE.forward, henc]⟩

theorem encode_fails_on_wrong_feature_dim_witness :
    ([(1 : ℚ), 2] ∈ [[(1 : ℚ), 2]]) ∧ ([(1 : ℚ), 2].length ≠ 3) ∧
    ((VAE.make 3 4 2 (fun _ => []) (fun _ => []) ⟨[], []⟩ ⟨[], []⟩ ⟨[], []⟩).encode
        [[(1 : ℚ), 2]] = Except.error VAEError.shapeMismatch ∧
      ∀ eps, (VAE.make 3 4 2 (fun _ => []) (fun _ => []) ⟨[], []⟩ ⟨[], []⟩ ⟨[], []⟩).forward
        eps [[(1 : ℚ), 2]] = Except.error VAEError.shapeMismatch) :=
  ⟨by simp, by decide,
    encode_fails_on_wrong_feature_dim 3 4 2 (fun _ => []) (fun _ => [])
      ⟨[], []⟩ ⟨[], []⟩ ⟨[], []⟩ [[(1 : ℚ), 2]] [(1 : ℚ), 2] (by simp) (by decide)⟩

/-- Claim C9: the exported embedding matrix is exactly the row-for-row image
of the dataset under the encoder's latent-mean head — the unshuffled
batched iteration plus concatenation reproduces `data.map encMu` — so it has
one row per input sample, every row of length `latent_dim`, and is computed
from `mu` only (the definition of `exportEmbeddings` invokes nothing but the
mean head: no `sample_z`, no noise). -/
theorem embeddings_are_per_row_latent_means
    (encMu : List ℚ → List ℚ) (b latent : ℕ) (data : List (List ℚ))
    (hb : 0 < b) (hlat : ∀ r, (encMu r).length = latent) :
    exportEmbeddings encMu b data = data.map encMu ∧
    (exportEmbeddings encMu b data).length = data.length ∧
    ∀ row ∈ exportEmbeddings encMu b data, row.length = latent := by
  have hmain : exportEmbeddings encMu b data = data.map encMu := by
    unfold exportEmbeddings
    rw [← List.map_flatten, batches_flatten b hb]
  refine ⟨hmain, by rw [hmain, List.length_map], ?_⟩
  intro row hrow
  rw [hmain] at hrow
  rcases List.mem_map.mp hrow with ⟨r, _, hre⟩
  rw [← hre]
  exact hlat r

theorem embeddings_are_per_row_latent_means_witness :
    (0 < 2) ∧ (∀ r : List ℚ, ((fun _ : List ℚ => [(0 : ℚ), 0]) r).length = 2) ∧
    (exportEmbeddings (fun _ : List ℚ => [(0 : ℚ), 0]) 2 [[(1 : ℚ)], [2], [3]] =
        [[(1 : ℚ)], [2], [3]].map (fun _ : List ℚ => [(0 : ℚ), 0]) ∧
      (exportEmbeddings (fun _ : List ℚ => [(0 : ℚ), 0]) 2 [[(1 : ℚ)], [2], [3]]).length =
        ([[(1 : ℚ)], [2], [3]] : List (List ℚ)).length ∧
      ∀ row ∈ exportEmbeddings (fun _ : List ℚ => [(0 : ℚ), 0]) 2 [[(1 : ℚ)], [2], [3]],
        row.length = 2) :=
  ⟨by decide, fun r => rfl,
    embeddings_are_per_row_latent_means (fun _ : List ℚ => [(0 : ℚ), 0]) 2 2
      [[(1 : ℚ)], [2], [3]] (by decide) (fun r => rfl)⟩

/-! ## Training-loop theorems -/

theorem runFrom_halted (t v : ℕ → Flt) (δ : ℚ) (pat n : ℕ) (s : TrainLog)
    (h : s.stopped = true) : runFrom t v δ pat n s = s := by
  cases n with
  | zero => rfl
  | succ n => simp [runFrom, h]

theorem runFrom_add (t v : ℕ → Flt) (δ : ℚ) (pat : ℕ) (a b : ℕ) (s : TrainLog) :
    runFrom t v δ pat (a + b) s = runFrom t v δ pat b (runFrom t v δ pat a s) := by
  induction a generalizing s with
  | zero => simp [runFrom]
  | succ a ih =>
      have hrw : a + 1 + b = (a + b) + 1 := by omega
      rw [hrw]
      cases hs : s.stopped with
      | true =>
          rw [runFrom_halted t v δ pat ((a + b) + 1) s hs,
              runFrom_halted t v δ pat (a + 1) s hs]
          exact (runFrom_halted t v δ pat b s hs).symm
      | false =>
          simp only [runFrom, hs, Bool.false_eq_true, if_false]
          exact ih _

/-- As long as the early-stopping counter has not reached `patience`, the run
after `j` epochs has recorded exactly the first `j` epoch losses and its
`(best_val_loss, counter)` pair follows the update recurrence `specState`. -/
theorem runFrom_no_stop (t v : ℕ → Flt) (δ : ℚ) (pat : ℕ) :
    ∀ j : ℕ, (∀ i, i < j → counterAt v δ i < pat) →
      runFrom t v δ pat j initLog =
        ⟨(List.range j).map t, (List.range j).map v,
         (specState v δ j).1, (specState v δ j).2, false⟩ := by
  intro j
  induction j with
  | zero => intro _; rfl
  | succ j ih =>
      intro h
      have hS := ih (fun i hi => h i (Nat.lt_succ_of_lt hi))
      rw [runFrom_add t v δ pat j 1 initLog, hS]
      cases hlt : Flt.lt (v j) (Flt.subQ (specState v δ j).1 δ) with
      | true =>
          simp [runFrom, epochStep, hlt, specState, List.range_succ]
      | false =>
          have hcj : counterAt v δ j < pat := h j (Nat.lt_succ_self j)
          have hceq : counterAt v δ j = (specState v δ j).2 + 1 := by
            simp [counterAt, specState, hlt]
          simp [runFrom, epochStep, hlt, specState, List.range_succ,
                decide_eq_false (by omega : ¬ (pat ≤ (specState v δ j).2 + 1))]

/-- Claim C2: in every executed epoch the loop updates `best_val_loss` and the
counter exactly as the spec's rule says (the `specState` recurrence), and if
the counter first reaches `patience` at epoch `k` (0-indexed, `k` within the
epoch budget), the run stops there: the break flag is set, exactly `k + 1`
epochs were processed (the loss curves have length `k + 1`), and for every
prefix of the run the state matches the recurrence. -/
theorem early_stopping_halts_at_first_patience_hit
    (t v : ℕ → Flt) (δ : ℚ) (pat N k : ℕ)
    (hpos : 0 < pat) (hkN : k < N)
    (hhit : pat ≤ counterAt v δ k)
    (hfirst : ∀ j, j < k → counterAt v δ j < pat) :
    (runFrom t v δ pat N initLog).stopped = true ∧
    (runFrom t v δ pat N initLog).val.length = k + 1 ∧
    (runFrom t v δ pat N initLog).train.length = k + 1 ∧
    ∀ j, j ≤ k →
      (runFrom t v δ pat j initLog).best = (specState v δ j).1 ∧
      (runFrom t v δ pat j initLog).counter = (specState v δ j).2 := by
  have hS := runFrom_no_stop t v δ pat k hfirst
  have hlt : Flt.lt (v k) (Flt.subQ (specState v δ k).1 δ) = false := by
    cases hl : Flt.lt (v k) (Flt.subQ (specState v δ k).1 δ) with
    | false => rfl
    | true =>
        exfalso
        have h0 : counterAt v δ k = 0 := by simp [counterAt, specState, hl]
        omega
  have hceq : counterAt v δ k = (specState v δ k).2 + 1 := by
    simp [counterAt, specState, hlt]
  have hk1 : runFrom t v δ pat (k + 1) initLog =
      ⟨(List.range k).map t ++ [t k], (List.range k).map v ++ [v k],
       (specState v δ k).1, (specState v δ k).2 + 1, true⟩ := by
    rw [runFrom_add t v δ pat k 1 initLog, hS]
    simp [runFrom, epochStep, hlt, decide_eq_true_eq,
          (by omega : pat ≤ (specState v δ k).2 + 1)]
  have hsplit : (k + 1) + (N - (k + 1)) = N := by omega
  have hfin : runFrom t v δ pat N initLog =
      ⟨(List.range k).map t ++ [t k], (List.range k).map v ++ [v k],
       (specState v δ k).1, (specState v δ k).2 + 1, true⟩ := by
    rw [← hsplit, runFrom_add, hk1]
    exact runFrom_halted _ _ _ _ _ _ rfl
  refine ⟨by rw [hfin], by simp [hfin], by simp [hfin], ?_⟩
  intro j hj
  have hSj := runFrom_no_stop t v δ pat j
    (fun i hi => hfirst i (lt_of_lt_of_le hi hj))
  rw [hSj]
  exact ⟨rfl, rfl⟩

theorem early_stopping_halts_at_first_patience_hit_witness :
    (0 < 3) ∧ (2 < 10) ∧ (3 ≤ counterAt (fun _ => Flt.inf) 0 2) ∧
    (∀ j, j < 2 → counterAt (fun _ => Flt.inf) 0 j < 3) ∧
    ((runFrom (fun _ => Flt.inf) (fun _ => Flt.inf) 0 3 10 initLog).stopped = true ∧
      (runFrom (fun _ => Flt.inf) (fun _ => Flt.inf) 0 3 10 initLog).val.length = 2 + 1 ∧
      (runFrom (fun _ => Flt.inf) (fun _ => Flt.inf) 0 3 10 initLog).train.length = 2 + 1 ∧
      ∀ j, j ≤ 2 →
        (runFrom (fun _ => Flt.inf) (fun _ => Flt.inf) 0 3 j initLog).best =
          (specState (fun _ => Flt.inf) 0 j).1 ∧
        (runFrom (fun _ => Flt.inf) (fun _ => Flt.inf) 0 3 j initLog).counter =
          (specState (fun _ => Flt.inf) 0 j).2) :=
  ⟨by decide, by decide, by decide, by decide,
    early_stopping_halts_at_first_patience_hit (fun _ => Flt.inf) (fun _ => Flt.inf) 0 3 10 2
      (by decide) (by decide) (by decide) (by decide)⟩

/-- Claim C8: the claim (with the spec) says a run must abort at the first
training step whose loss is non-finite.  The code has no finiteness check:
the inner batch loop visits every batch unconditionally, so a `nan` loss at
the second of three steps still produces three executed steps (with the
running loss carrying the `nan`), and a run whose validation losses are all
`nan` continues for `patience = 5` further epochs (every `nan` comparison is
false, so the counter climbs) and then ends through the ordinary
early-stopping break — five epochs recorded, no abort.  Constants as in
simulations.py: `patience = 5`, `min_delta = 0.005`. -/
theorem nonfinite_loss_run_continues :
    batch_loop [Flt.fin 1, Flt.nan, Flt.fin 2] = (Flt.nan, 3) ∧
    (runFrom (fun _ => Flt.nan) (fun _ => Flt.nan) (5 / 1000) 5 10 initLog).val.length = 5 ∧
    (runFrom (fun _ => Flt.nan) (fun _ => Flt.nan) (5 / 1000) 5 10 initLog).stopped = true := by
  refine ⟨?_, ?_, ?_⟩
  · simp [batch_loop, Flt.add]
  · decide
  · decide

theorem runFrom_len_eq (t v : ℕ → Flt) (δ : ℚ) (pat : ℕ) :
    ∀ n s, s.train.length = s.val.length →
      (runFrom t v δ pat n s).train.length = (runFrom t v δ pat n s).val.length := by
  intro n
  induction n with
  | zero => intro s h; exact h
  | succ n ih =>
      intro s h
      cases hs : s.stopped with
      | true => simp [runFrom, hs, h]
      | false =>
          simp only [runFrom, hs, Bool.false_eq_true, if_false]
          apply ih
          cases hlt : Flt.lt (v s.val.length) (Flt.subQ s.best δ) <;>
            simp [epochStep, hlt, h]

theorem runFrom_len_le (t v : ℕ → Flt) (δ : ℚ) (pat : ℕ) :
    ∀ n s, (runFrom t v δ pat n s).val.length ≤ s.val.length + n := by
  intro n
  induction n with
  | zero => intro s; simp [runFrom]
  | succ n ih =>
      intro s
      cases hs : s.stopped with
      | true => simp [runFrom, hs]
      | false =>
          simp only [runFrom, hs, Bool.false_eq_true, if_false]
          have hstep : (epochStep δ pat (t s.val.length) (v s.val.length) s).val.length =
              s.val.length + 1 := by
            cases hlt : Flt.lt (v s.val.length) (Flt.subQ s.best δ) <;>
              simp [epochStep, hlt]
          have := ih (epochStep δ pat (t s.val.length) (v s.val.length) s)
          omega

theorem runFrom_extends (t v : ℕ → Flt) (δ : ℚ) (pat : ℕ) :
    ∀ n s, s.train <+: (runFrom t v δ pat n s).train ∧
           s.val <+: (runFrom t v δ pat n s).val := by
  intro n
  induction n with
  | zero => intro s; exact ⟨List.prefix_refl _, List.prefix_refl _⟩
  | succ n ih =>
      intro s
      cases hs : s.stopped with
      | true => simp [runFrom, hs, List.prefix_refl]
      | false =>
          simp only [runFrom, hs, Bool.false_eq_true, if_false]
          obtain ⟨h1, h2⟩ := ih (epochStep δ pat (t s.val.length) (v s.val.length) s)
          have e1 : (epochStep δ pat (t s.val.length) (v s.val.length) s).train =
              s.train ++ [t s.val.length] := by
            cases hlt : Flt.lt (v s.val.length) (Flt.subQ s.best δ) <;>
              simp [epochStep, hlt]
          have e2 : (epochStep δ pat (t s.val.length) (v s.val.length) s).val =
              s.val ++ [v s.val.length] := by
            cases hlt : Flt.lt (v s.val.length) (Flt.subQ s.best δ) <;>
              simp [epochStep, hlt]
          rw [e1] at h1
          rw [e2] at h2
          exact ⟨(List.prefix_append _ _).trans h1, (List.prefix_append _ _).trans h2⟩

/-- Claim C10: every executed epoch appends exactly one value to each loss
curve before the early-stopping check runs (the `epochStep` clause), so at
every point of the run the two curves have equal length, the length never
exceeds the epoch budget, earlier entries are never modified (the state after
`j` epochs of budget is a prefix of the state after the full budget), and the
common length is the number of completed epochs. -/
theorem loss_curves_grow_in_lockstep
    (t v : ℕ → Flt) (δ : ℚ) (pat N j : ℕ) (hj : j ≤ N) :
    (runFrom t v δ pat N initLog).train.length = (runFrom t v δ pat N initLog).val.length ∧
    (runFrom t v δ pat N initLog).val.length ≤ N ∧
    (runFrom t v δ pat j initLog).train <+: (runFrom t v δ pat N initLog).train ∧
    (runFrom t v δ pat j initLog).val <+: (runFrom t v δ pat N initLog).val ∧
    ∀ s tl vl, (epochStep δ pat tl vl s).train = s.train ++ [tl] ∧
               (epochStep δ pat tl vl s).val = s.val ++ [vl] := by
  have hsplit : j + (N - j) = N := by omega
  have hpre := runFrom_extends t v δ pat (N - j) (runFrom t v δ pat j initLog)
  rw [← runFrom_add, hsplit] at hpre
  refine ⟨runFrom_len_eq t v δ pat N initLog rfl, ?_, hpre.1, hpre.2, ?_⟩
  · have := runFrom_len_le t v δ pat N initLog
    simpa [initLog] using this
  · intro s tl vl
    cases hlt : Flt.lt vl (Flt.subQ s.best δ) <;> simp [epochStep, hlt]

theorem loss_curves_grow_in_lockstep_witness :
    (1 ≤ 3) ∧
    ((runFrom (fun _ => Flt.inf) (fun _ => Flt.inf) 0 5 3 initLog).train.length =
        (runFrom (fun _ => Flt.inf) (fun _ => Flt.inf) 0 5 3 initLog).val.length ∧
      (runFrom (fun _ => Flt.inf) (fun _ => Flt.inf) 0 5 3 initLog).val.length ≤ 3 ∧
      (runFrom (fun _ => Flt.inf) (fun _ => Flt.inf) 0 5 1 initLog).train <+:
        (runFrom (fun _ => Flt.inf) (fun _ => Flt.inf) 0 5 3 initLog).train ∧
      (runFrom (fun _ => Flt.inf) (fun _ => Flt.inf) 0 5 1 initLog).val <+:
        (runFrom (fun _ => Flt.inf) (fun _ => Flt.inf) 0 5 3 initLog).val ∧
      ∀ s tl vl, (epochStep 0 5 tl vl s).train = s.train ++ [tl] ∧
                 (epochStep 0 5 tl vl s).val = s.val ++ [vl]) :=
  ⟨by decide,
    loss_curves_grow_in_lockstep (fun _ => Flt.inf) (fun _ => Flt.inf) 0 5 3 1 (by decide)⟩
